import Mathlib

/-!
Verification development for the NDVI preprocessing notebook
(fanta-ukraine-fallow-mapping).

The Python source (src/NDVI.ipynb) is shallowly embedded below:

* `findDoy` embeds `extract_doy_from_band_name` (the regex search for
  `Syn_VI_fitted(\d+)` followed by `int` on the captured digits);
* `findYear` embeds `extract_year_from_filename` (the regex search for
  `_(\d{4})(?:[\.\-_]|$)`; note that Python `$` also matches just before a
  newline that ends the string, which `sepOrEnd` reproduces);
* `processAndSaveBands` embeds `process_and_save_bands`: strings become
  `List Char`, the rasterio dataset writes become a list of `OutFile`
  records, and the in-place mutation of the `out_meta` dict becomes the
  `Meta` value returned as the second component;
* `mergeTiffFiles` embeds `merge_tiff_files` over an abstract environment
  `Env` that says which paths open successfully and whether the external
  `rasterio.merge.merge` call succeeds; the second component of the result
  is the list of raster handles still open when the function returns or
  when the modelled exception propagates out of it;
* `groupFilesByYear` embeds the grouping loop of `process_region`
  (`if filename.endswith('.tif')` and the truthiness test `if year:`).

Python strings are `List Char`, Python `None`-or-int results are
`Option Nat`, raised exceptions are `Except PyErr`, and `\d` is read as the
ASCII digits `0`-`9`.
-/

/-- Numeric value of an ASCII digit character, as used by Python `int`. -/
def digitVal (c : Char) : Nat := c.toNat - 48

/-- Value of a nonempty digit string under Python `int` (base 10). -/
def digitsToNat (ds : List Char) : Nat :=
  ds.foldl (fun acc c => 10 * acc + digitVal c) 0

/-- Whether a character list starts with an ASCII digit. -/
def headIsDigit : List Char → Bool
  | [] => false
  | c :: _ => c.isDigit

/-- The fixed textual marker of the band-label regex `Syn_VI_fitted(\d+)`. -/
def synMarker : List Char := ['S', 'y', 'n', '_', 'V', 'I', '_', 'f', 'i', 't', 't', 'e', 'd']

/-- Embedding of `extract_doy_from_band_name`: scan for the leftmost
position where `Syn_VI_fitted` is followed by at least one digit, and
return the value of the maximal digit run there (`int(match.group(1))`);
`none` models Python `None` when the regex does not match. -/
def findDoy : List Char → Option Nat
  | [] => none
  | c :: cs =>
    if synMarker.isPrefixOf (c :: cs) && headIsDigit ((c :: cs).drop synMarker.length) then
      some (digitsToNat (((c :: cs).drop synMarker.length).takeWhile Char.isDigit))
    else
      findDoy cs

/-- The tail `(?:[\.\-_]|$)` of the year regex: the position after the four
digits must carry `.`, `-` or `_`, or be the end of the string, or be a
newline that ends the string (Python `$` matches just before a trailing
newline). -/
def sepOrEnd : List Char → Bool
  | [] => true
  | ['\n'] => true
  | c :: _ => c == '.' || c == '-' || c == '_'

/-- Attempt of the year regex at one position: given the characters after a
`_`, return the captured group when `(\d{4})(?:[\.\-_]|$)` matches here. -/
def yearHit : List Char → Option (List Char)
  | d1 :: d2 :: d3 :: d4 :: rest =>
    if d1.isDigit && d2.isDigit && d3.isDigit && d4.isDigit && sepOrEnd rest then
      some [d1, d2, d3, d4]
    else
      none
  | _ => none

/-- Embedding of `extract_year_from_filename`: leftmost match of
`_(\d{4})(?:[\.\-_]|$)` followed by `int` on the captured digits; `none`
models Python `None`. -/
def findYear : List Char → Option Nat
  | [] => none
  | c :: cs =>
    if c = '_' then
      match yearHit cs with
      | some ds => some (digitsToNat ds)
      | none => findYear cs
    else
      findYear cs

/-- Decimal digit string of a natural number, as Python `str`/`format`
produce for a nonnegative int. -/
def natDigits (n : Nat) : List Char := Nat.toDigits 10 n

/-- Python `f"{doy:03d}"` for a nonnegative value: the decimal digits,
zero-padded on the left to width at least 3. -/
def pad3 (n : Nat) : List Char :=
  List.replicate (3 - (natDigits n).length) '0' ++ natDigits n

/-- Embedding of `os.path.join(a, b)` for a plain relative component. -/
def pathJoin (a b : List Char) : List Char := a ++ '/' :: b

/-- The output file name `f"NDVI_{region_name}_{year}_{doy:03d}.tif"`. -/
def ndviFileName (region : List Char) (year doy : Nat) : List Char :=
  "NDVI_".toList ++ region ++ '_' :: natDigits year ++ '_' :: pad3 doy ++ ".tif".toList

/-- Embedding of Python `str.endswith`. -/
def endsWithList (s suffix : List Char) : Bool := suffix.isSuffixOf s

/-- Raster metadata record: the keys of the rasterio `meta` dict that the
notebook reads or writes. -/
structure Meta where
  driver : List Char
  dtype : List Char
  width : Nat
  height : Nat
  count : Nat
  crs : List Char
  transform : Int
deriving DecidableEq

/-- The merged pixel array: `shape = (bands, height, width)` with a pixel
lookup function. -/
structure Mosaic where
  bands : Nat
  height : Nat
  width : Nat
  pix : Nat → Nat → Nat → Int

/-- An opened raster tile: its per-band description strings and its `meta`. -/
structure Tile where
  descriptions : List (List Char)
  meta : Meta

/-- The triple returned by `merge_tiff_files`. -/
structure MergeOut where
  mosaic : Mosaic
  meta : Meta
  descriptions : List (List Char)

/-- Abstract I/O environment for `merge_tiff_files`: which paths
`rasterio.open` can open (and to which tile), and whether the external
`rasterio.merge.merge` call succeeds, together with its result. -/
structure Env where
  openTile : List Char → Option Tile
  mergeOk : Bool
  mergeMosaic : Mosaic
  mergeTransform : Int

/-- The Python exceptions the embedded code can raise: the `ValueError` of
the empty-input check, a `rasterio.open` failure, and a failure of the
external mosaic operation. -/
inductive PyErr where
  | valueError
  | openError
  | mergeError
deriving DecidableEq

/-- One raster file written by `process_and_save_bands`: its path, the
metadata it was opened with, and the single band written into it. -/
structure OutFile where
  name : List Char
  meta : Meta
  data : Nat → Nat → Int

/-- The constant `"GTiff"`. -/
def gtiffStr : List Char := "GTiff".toList

/-- The constant `"int16"`. -/
def int16Str : List Char := "int16".toList

/-- Sequence indexing `band_descriptions[band_idx]`; the caller passes the
description tuple of the merged raster, whose length equals the band
count, so the loop below never reads past the end — an out-of-range read
is modelled as the empty label, which parses to no day-of-year. -/
def listGetD (l : List (List Char)) (i : Nat) : List Char :=
  match l, i with
  | [], _ => []
  | x :: _, 0 => x
  | _ :: xs, n + 1 => listGetD xs n

/-- The per-band loop of `process_and_save_bands`, processing the band
indices in the first list argument; the `Meta` argument threads the
`out_meta` dict, which the loop mutates in place. Returns the files
written (in order) and the final state of `out_meta`. -/
def pasLoop (mo : Mosaic) (descs : List (List Char)) (dir : List Char) (year : Nat)
    (region : List Char) (crs : List Char) : List Nat → Meta → List OutFile × Meta
  | [], m => ([], m)
  | i :: is, m =>
    match findDoy (listGetD descs i) with
    | none => pasLoop mo descs dir year region crs is m
    | some doy =>
      let m2 : Meta :=
        { m with driver := gtiffStr, height := mo.height, width := mo.width,
                 count := 1, dtype := int16Str, crs := crs }
      let res := pasLoop mo descs dir year region crs is m2
      (⟨pathJoin dir (ndviFileName region year doy), m2, fun r c => mo.pix i r c⟩ :: res.1,
       res.2)

/-- Embedding of `process_and_save_bands(mosaic, out_meta,
band_descriptions, output_dir, year, region_name, crs)`. -/
def processAndSaveBands (mo : Mosaic) (outMeta : Meta) (descs : List (List Char))
    (dir : List Char) (year : Nat) (region : List Char) (crs : List Char) :
    List OutFile × Meta :=
  pasLoop mo descs dir year region crs (List.range mo.bands) outMeta

/-- The `rasterio.open` loop of `merge_tiff_files`: open each path in turn,
returning the handles opened so far (with their tiles) and whether every
open succeeded; on the first failure the loop stops, as the Python
exception propagates. -/
def openLoop (env : Env) : List (List Char) → List (List Char × Tile) × Bool
  | [] => ([], true)
  | p :: ps =>
    match env.openTile p with
    | none => ([], false)
    | some t =>
      let r := openLoop env ps
      ((p, t) :: r.1, r.2)

/-- Embedding of `merge_tiff_files(tiff_files)`. The first component is the
returned triple or the exception that propagates; the second component is
the list of raster handles still open when control leaves the function
(the source closes handles only on the success path, after `merge`). -/
def mergeTiffFiles (env : Env) (files : List (List Char)) :
    Except PyErr MergeOut × List (List Char) :=
  match files with
  | [] => (Except.error PyErr.valueError, [])
  | f0 :: fs =>
    match env.openTile f0 with
    | none => (Except.error PyErr.openError, [])
    | some t0 =>
      let r := openLoop env fs
      let opened := f0 :: r.1.map Prod.fst
      if r.2 then
        if env.mergeOk then
          (Except.ok ⟨env.mergeMosaic,
                      { t0.meta with transform := env.mergeTransform },
                      t0.descriptions⟩, [])
        else (Except.error PyErr.mergeError, opened)
      else (Except.error PyErr.openError, opened)

/-- The suffix `".tif"` checked by `process_region`. -/
def tifSuffix : List Char := ".tif".toList

/-- Append one path to the list stored under a year key, mirroring
`dict.setdefault(year, []).append(path)`: a missing key is inserted at the
end, an existing key keeps its position. -/
def addToGroup : List (Nat × List (List Char)) → Nat → List Char →
    List (Nat × List (List Char))
  | [], y, p => [(y, [p])]
  | (y0, ps) :: rest, y, p =>
    if y0 = y then (y0, ps ++ [p]) :: rest
    else (y0, ps) :: addToGroup rest y p

/-- Lookup of the path list stored under a year key (empty when absent). -/
def lookupGroup : List (Nat × List (List Char)) → Nat → List (List Char)
  | [], _ => []
  | (y0, ps) :: rest, y => if y0 = y then ps else lookupGroup rest y

/-- One iteration of the grouping loop of `process_region`: keep the file
when its name ends in `.tif` and `extract_year_from_filename` returns a
truthy value (Python `if year:` — `None` and `0` are both falsy). -/
def groupStep (rp : List Char) (acc : List (Nat × List (List Char))) (f : List Char) :
    List (Nat × List (List Char)) :=
  if endsWithList f tifSuffix then
    match findYear f with
    | some y => if y = 0 then acc else addToGroup acc y (pathJoin rp f)
    | none => acc
  else acc

/-- The `tiff_files_by_year` mapping built by `process_region` from the
directory listing `files` of the region directory `rp`. -/
def groupFilesByYear (rp : List Char) (files : List (List Char)) :
    List (Nat × List (List Char)) :=
  files.foldl (groupStep rp) []

/-! ### Basic list lemmas used by the regex correctness proofs -/

/-- A list is a boolean prefix of itself followed by anything. -/
lemma isPrefixOf_append_self (l t : List Char) : l.isPrefixOf (l ++ t) = true := by
  induction l with
  | nil => simp [List.isPrefixOf]
  | cons c cs ih => simp [List.isPrefixOf, ih]

/-- Boolean prefix test agrees with the existence of a list decomposition. -/
lemma isPrefixOf_iff {l s : List Char} : l.isPrefixOf s = true ↔ ∃ t, s = l ++ t := by
  induction l generalizing s with
  | nil => simp [List.isPrefixOf]
  | cons c cs ih =>
    cases s with
    | nil => simp [List.isPrefixOf]
    | cons b bs =>
      simp only [List.isPrefixOf, Bool.and_eq_true, beq_iff_eq, ih, List.cons_append]
      constructor
      · rintro ⟨rfl, t, rfl⟩
        exact ⟨t, rfl⟩
      · rintro ⟨t, h⟩
        injection h with h1 h2
        exact ⟨h1.symm, t, h2⟩

/-- Dropping the length of the left part of an append yields the right part. -/
lemma drop_len_append {α : Type} (l t : List α) : (l ++ t).drop l.length = t := by
  induction l with
  | nil => rfl
  | cons c cs ih =>
    simp only [List.cons_append, List.length_cons, List.drop_succ_cons]
    exact ih

/-- `takeWhile` and `dropWhile` split a list. -/
lemma takeWhile_append_dropWhile_eq (p : Char → Bool) (l : List Char) :
    l.takeWhile p ++ l.dropWhile p = l := by
  induction l with
  | nil => rfl
  | cons c cs ih => by_cases h : p c <;> simp [List.takeWhile_cons, List.dropWhile_cons, h, ih]

/-- `takeWhile` consumes exactly an all-digit block when the remainder does
not start with a digit. -/
lemma takeWhile_digits_append {d post : List Char} (hd : d.all Char.isDigit = true)
    (hp : headIsDigit post = false) : (d ++ post).takeWhile Char.isDigit = d := by
  induction d with
  | nil =>
    cases post with
    | nil => rfl
    | cons c cs =>
      simp only [headIsDigit] at hp
      simp [List.takeWhile_cons, hp]
  | cons a d2 ih =>
    simp only [List.all_cons, Bool.and_eq_true] at hd
    simp [List.takeWhile_cons, hd.1, ih hd.2]

/-- What remains after `dropWhile isDigit` never starts with a digit. -/
lemma headIsDigit_dropWhile (l : List Char) :
    headIsDigit (l.dropWhile Char.isDigit) = false := by
  induction l with
  | nil => rfl
  | cons c cs ih =>
    by_cases h : Char.isDigit c
    · simpa [List.dropWhile_cons, h] using ih
    · simp [List.dropWhile_cons, h, headIsDigit]

/-- Everything `takeWhile` keeps satisfies the predicate. -/
lemma all_takeWhile (p : Char → Bool) (l : List Char) : (l.takeWhile p).all p = true := by
  induction l with
  | nil => rfl
  | cons c cs ih => by_cases h : p c <;> simp [List.takeWhile_cons, h, ih]

/-- `takeWhile isDigit` is nonempty when the list starts with a digit. -/
lemma takeWhile_ne_nil_of_headIsDigit {l : List Char} (h : headIsDigit l = true) :
    l.takeWhile Char.isDigit ≠ [] := by
  cases l with
  | nil => simp [headIsDigit] at h
  | cons c cs =>
    simp only [headIsDigit] at h
    simp [List.takeWhile_cons, h]

/-! ### Correctness of `findDoy` against the regex specification -/

/-- Declarative reading of one match of `Syn_VI_fitted(\d+)` inside `s`:
`pre` is the text before the marker and `d` the digit run captured by the
greedy `\d+` (nonempty, all digits, maximal because the remainder must not
start with a digit). -/
def IsDoyMatch (s pre d : List Char) : Prop :=
  ∃ post, s = pre ++ (synMarker ++ (d ++ post)) ∧ d ≠ [] ∧ d.all Char.isDigit = true ∧
    headIsDigit post = false

/-- Unfolding equation of `findDoy` on a nonempty list. -/
lemma findDoy_cons (c : Char) (cs : List Char) :
    findDoy (c :: cs) =
      if synMarker.isPrefixOf (c :: cs) && headIsDigit ((c :: cs).drop synMarker.length) then
        some (digitsToNat (((c :: cs).drop synMarker.length).takeWhile Char.isDigit))
      else findDoy cs := rfl

/-- When the scan condition holds, `findDoy` returns the digit run at the
current position. -/
lemma findDoy_eq_pos {s : List Char}
    (h : (synMarker.isPrefixOf s && headIsDigit (s.drop synMarker.length)) = true) :
    findDoy s = some (digitsToNat ((s.drop synMarker.length).takeWhile Char.isDigit)) := by
  cases s with
  | nil => simp [synMarker, List.isPrefixOf] at h
  | cons c cs =>
    rw [findDoy_cons, h]
    simp

/-- When the scan condition fails, `findDoy` moves one position right. -/
lemma findDoy_eq_neg {c : Char} {cs : List Char}
    (h : (synMarker.isPrefixOf (c :: cs) && headIsDigit ((c :: cs).drop synMarker.length)) = false) :
    findDoy (c :: cs) = findDoy cs := by
  rw [findDoy_cons, h]
  simp

/-- A match at position 0 determines the result of `findDoy`. -/
lemma findDoy_of_match_nil {s d : List Char} (h : IsDoyMatch s [] d) :
    findDoy s = some (digitsToNat d) := by
  obtain ⟨post, hs, hne, hdig, hpost⟩ := h
  simp only [List.nil_append] at hs
  subst hs
  have h2 : (synMarker ++ (d ++ post)).drop synMarker.length = d ++ post :=
    drop_len_append _ _
  have h3 : headIsDigit (d ++ post) = true := by
    cases d with
    | nil => exact absurd rfl hne
    | cons a d2 =>
      simp only [List.all_cons, Bool.and_eq_true] at hdig
      simp [headIsDigit, hdig.1]
  rw [findDoy_eq_pos (by rw [h2, h3, isPrefixOf_append_self]; rfl), h2,
    takeWhile_digits_append hdig hpost]

/-- When no match starts at position 0, the scan condition of `findDoy`
is false. -/
lemma doyCond_false_of_no_match_nil {s : List Char} (h : ∀ d, ¬ IsDoyMatch s [] d) :
    (synMarker.isPrefixOf s && headIsDigit (s.drop synMarker.length)) = false := by
  by_contra hcontra
  rw [Bool.not_eq_false, Bool.and_eq_true] at hcontra
  obtain ⟨h1, h2⟩ := hcontra
  obtain ⟨t, ht⟩ := isPrefixOf_iff.mp h1
  have hdrop : s.drop synMarker.length = t := by rw [ht]; exact drop_len_append _ _
  rw [hdrop] at h2
  apply h (t.takeWhile Char.isDigit)
  refine ⟨t.dropWhile Char.isDigit, ?_, ?_, ?_, ?_⟩
  · rw [List.nil_append, takeWhile_append_dropWhile_eq]
    exact ht
  · exact takeWhile_ne_nil_of_headIsDigit h2
  · exact all_takeWhile _ _
  · exact headIsDigit_dropWhile _

/-- Shifting a match under a common head character. -/
lemma isDoyMatch_cons {c : Char} {cs pre d : List Char} :
    IsDoyMatch (c :: cs) (c :: pre) d ↔ IsDoyMatch cs pre d := by
  constructor
  · rintro ⟨post, hs, hne, hdig, hpost⟩
    simp only [List.cons_append] at hs
    injection hs with _ h2
    exact ⟨post, h2, hne, hdig, hpost⟩
  · rintro ⟨post, hs, hne, hdig, hpost⟩
    exact ⟨post, by rw [List.cons_append, hs], hne, hdig, hpost⟩

/-- The prefix of a match in a nonempty list is empty or starts with the
head character. -/
lemma isDoyMatch_pre_shape {c : Char} {cs pre d : List Char}
    (h : IsDoyMatch (c :: cs) pre d) : pre = [] ∨ ∃ pre2, pre = c :: pre2 := by
  obtain ⟨post, hs, _, _, _⟩ := h
  cases pre with
  | nil => exact Or.inl rfl
  | cons a pre2 =>
    right
    simp only [List.cons_append] at hs
    injection hs with h1 _
    exact ⟨pre2, by rw [h1]⟩

/-- On the leftmost match, `findDoy` returns the captured digits. -/
lemma findDoy_of_leftmost : ∀ s pre d : List Char, IsDoyMatch s pre d →
    (∀ pre2 d2, IsDoyMatch s pre2 d2 → pre.length ≤ pre2.length) →
    findDoy s = some (digitsToNat d) := by
  intro s
  induction s with
  | nil =>
    intro pre d h _
    obtain ⟨post, hs, _, _, _⟩ := h
    have hlen := congrArg List.length hs
    simp [synMarker] at hlen
    omega
  | cons c cs ih =>
    intro pre d h hmin
    by_cases h0 : ∃ d0, IsDoyMatch (c :: cs) [] d0
    · obtain ⟨d0, hd0⟩ := h0
      have hpre : pre = [] := List.length_eq_zero.mp (Nat.le_zero.mp (hmin [] d0 hd0))
      subst hpre
      exact findDoy_of_match_nil h
    · push_neg at h0
      rw [findDoy_eq_neg (doyCond_false_of_no_match_nil h0)]
      rcases isDoyMatch_pre_shape h with hpre | ⟨pre2, rfl⟩
      · subst hpre
        exact absurd h (h0 d)
      · refine ih pre2 d (isDoyMatch_cons.mp h) ?_
        intro pre3 d3 h3
        have := hmin (c :: pre3) d3 (isDoyMatch_cons.mpr h3)
        simpa using this

/-- When no match exists anywhere, `findDoy` returns `none`. -/
lemma findDoy_of_no_match : ∀ s : List Char, (∀ pre d, ¬ IsDoyMatch s pre d) →
    findDoy s = none := by
  intro s
  induction s with
  | nil => intro _; rfl
  | cons c cs ih =>
    intro h
    rw [findDoy_eq_neg (doyCond_false_of_no_match_nil (fun d => h [] d))]
    exact ih (fun pre d hm => h (c :: pre) d (isDoyMatch_cons.mpr hm))

/-! ### Correctness of `findYear` against the regex specification -/

/-- A four-element list decomposes into its elements. -/
lemma exists_four {ds : List Char} (h : ds.length = 4) :
    ∃ a b c d, ds = [a, b, c, d] := by
  cases ds with
  | nil => simp at h
  | cons a t1 =>
    cases t1 with
    | nil => simp at h
    | cons b t2 =>
      cases t2 with
      | nil => simp at h
      | cons c t3 =>
        cases t3 with
        | nil => simp at h
        | cons d t4 =>
          cases t4 with
          | nil => exact ⟨a, b, c, d, rfl⟩
          | cons e t5 =>
            exfalso
            simp only [List.length_cons] at h
            omega

/-- `all isDigit` over a four-element list as a boolean conjunction. -/
lemma all_four_iff {a b c d : Char} :
    ([a, b, c, d].all Char.isDigit = true) ↔
      (a.isDigit && b.isDigit && c.isDigit && d.isDigit) = true := by
  simp [List.all_cons, Bool.and_eq_true, and_assoc]

/-- Unfolding equation of `yearHit` on a list of length at least four. -/
lemma yearHit_cons4 (a b c d : Char) (rest : List Char) :
    yearHit (a :: b :: c :: d :: rest) =
      if a.isDigit && b.isDigit && c.isDigit && d.isDigit && sepOrEnd rest then
        some [a, b, c, d]
      else none := rfl

/-- Inversion of a successful `yearHit`. -/
lemma yearHit_eq_some {t ds : List Char} (h : yearHit t = some ds) :
    ∃ a b c d rest, t = a :: b :: c :: d :: rest ∧ ds = [a, b, c, d] ∧
      (a.isDigit && b.isDigit && c.isDigit && d.isDigit) = true ∧ sepOrEnd rest = true := by
  match t with
  | [] => exact absurd h (by simp [yearHit])
  | [a] => exact absurd h (by simp [yearHit])
  | [a, b] => exact absurd h (by simp [yearHit])
  | [a, b, c] => exact absurd h (by simp [yearHit])
  | a :: b :: c :: d :: rest =>
    rw [yearHit_cons4] at h
    by_cases hc : (a.isDigit && b.isDigit && c.isDigit && d.isDigit && sepOrEnd rest) = true
    · rw [if_pos hc] at h
      injection h with h2
      rw [Bool.and_eq_true] at hc
      exact ⟨a, b, c, d, rest, rfl, h2.symm, hc.1, hc.2⟩
    · rw [if_neg hc] at h
      exact absurd h (by simp)

/-- `yearHit` succeeds on four digits followed by an accepted boundary. -/
lemma yearHit_of {a b c d : Char} {rest : List Char}
    (hdig : (a.isDigit && b.isDigit && c.isDigit && d.isDigit) = true)
    (hsep : sepOrEnd rest = true) :
    yearHit (a :: b :: c :: d :: rest) = some [a, b, c, d] := by
  rw [yearHit_cons4, if_pos]
  rw [Bool.and_eq_true]
  exact ⟨hdig, hsep⟩

/-- Declarative reading of one match of `_(\d{4})` followed by a boundary
test `B` inside `s`: `pre` is the text before the underscore and `ds` the
four captured digits. Instantiating `B` with `sepOrEnd` gives the matches
of the source regex; instantiating it with `claimBoundary` below gives the
matches the specification text describes. -/
def IsYearMatchGen (B : List Char → Bool) (s pre ds : List Char) : Prop :=
  ∃ post, s = pre ++ ('_' :: (ds ++ post)) ∧ ds.length = 4 ∧ ds.all Char.isDigit = true ∧
    B post = true

/-- The boundary the specification text describes: a separator character
`.`, `-` or `_`, or the end of the string — with no provision for a
trailing newline. -/
def claimBoundary : List Char → Bool
  | [] => true
  | c :: _ => c == '.' || c == '-' || c == '_'

/-- Unfolding equation of `findYear` on a nonempty list. -/
lemma findYear_cons (c : Char) (cs : List Char) :
    findYear (c :: cs) =
      if c = '_' then
        match yearHit cs with
        | some ds => some (digitsToNat ds)
        | none => findYear cs
      else findYear cs := rfl

/-- A match at position 0 determines the result of `findYear`. -/
lemma findYear_of_match_nil {s ds : List Char} (h : IsYearMatchGen sepOrEnd s [] ds) :
    findYear s = some (digitsToNat ds) := by
  obtain ⟨post, hs, h4, hdig, hb⟩ := h
  simp only [List.nil_append] at hs
  subst hs
  obtain ⟨a, b, c, d, rfl⟩ := exists_four h4
  rw [findYear_cons, if_pos rfl]
  rw [show ([a, b, c, d] : List Char) ++ post = a :: b :: c :: d :: post from rfl]
  rw [yearHit_of (all_four_iff.mp hdig) hb]

/-- When no match starts at position 0, `findYear` moves one position
right. -/
lemma findYear_eq_next {c : Char} {cs : List Char}
    (h : ∀ ds, ¬ IsYearMatchGen sepOrEnd (c :: cs) [] ds) :
    findYear (c :: cs) = findYear cs := by
  rw [findYear_cons]
  by_cases hc : c = '_'
  · rw [if_pos hc]
    cases hy : yearHit cs with
    | none => rfl
    | some ds =>
      obtain ⟨a, b, c2, d, rest, hcs, hds, hdig, hsep⟩ := yearHit_eq_some hy
      exfalso
      apply h [a, b, c2, d]
      refine ⟨rest, ?_, rfl, all_four_iff.mpr hdig, hsep⟩
      rw [List.nil_append, hc, hcs]
      rfl
  · rw [if_neg hc]

/-- Shifting a year match under a common head character. -/
lemma isYearMatchGen_cons {B : List Char → Bool} {c : Char} {cs pre ds : List Char} :
    IsYearMatchGen B (c :: cs) (c :: pre) ds ↔ IsYearMatchGen B cs pre ds := by
  constructor
  · rintro ⟨post, hs, h4, hdig, hb⟩
    simp only [List.cons_append] at hs
    injection hs with _ h2
    exact ⟨post, h2, h4, hdig, hb⟩
  · rintro ⟨post, hs, h4, hdig, hb⟩
    exact ⟨post, by rw [List.cons_append, hs], h4, hdig, hb⟩

/-- The prefix of a year match in a nonempty list is empty or starts with
the head character. -/
lemma isYearMatchGen_pre_shape {B : List Char → Bool} {c : Char} {cs pre ds : List Char}
    (h : IsYearMatchGen B (c :: cs) pre ds) : pre = [] ∨ ∃ pre2, pre = c :: pre2 := by
  obtain ⟨post, hs, _, _, _⟩ := h
  cases pre with
  | nil => exact Or.inl rfl
  | cons a pre2 =>
    right
    simp only [List.cons_append] at hs
    injection hs with h1 _
    exact ⟨pre2, by rw [h1]⟩

/-- On the leftmost match of the source regex, `findYear` returns the
captured four digits. -/
lemma findYear_of_leftmost : ∀ s pre ds : List Char, IsYearMatchGen sepOrEnd s pre ds →
    (∀ pre2 ds2, IsYearMatchGen sepOrEnd s pre2 ds2 → pre.length ≤ pre2.length) →
    findYear s = some (digitsToNat ds) := by
  intro s
  induction s with
  | nil =>
    intro pre ds h _
    obtain ⟨post, hs, h4, _, _⟩ := h
    have hlen := congrArg List.length hs
    simp only [List.length_nil, List.length_append, List.length_cons, h4] at hlen
    omega
  | cons c cs ih =>
    intro pre ds h hmin
    by_cases h0 : ∃ ds0, IsYearMatchGen sepOrEnd (c :: cs) [] ds0
    · obtain ⟨ds0, hd0⟩ := h0
      have hpre : pre = [] := List.length_eq_zero.mp (Nat.le_zero.mp (hmin [] ds0 hd0))
      subst hpre
      exact findYear_of_match_nil h
    · push_neg at h0
      rw [findYear_eq_next h0]
      rcases isYearMatchGen_pre_shape h with hpre | ⟨pre2, rfl⟩
      · subst hpre
        exact absurd h (h0 ds)
      · refine ih pre2 ds (isYearMatchGen_cons.mp h) ?_
        intro pre3 ds3 h3
        have := hmin (c :: pre3) ds3 (isYearMatchGen_cons.mpr h3)
        simpa using this

/-- When no match of the source regex exists anywhere, `findYear` returns
`none`. -/
lemma findYear_of_no_match : ∀ s : List Char, (∀ pre ds, ¬ IsYearMatchGen sepOrEnd s pre ds) →
    findYear s = none := by
  intro s
  induction s with
  | nil => intro _; rfl
  | cons c cs ih =>
    intro h
    rw [findYear_eq_next (fun ds => h [] ds)]
    exact ih (fun pre ds hm => h (c :: pre) ds (isYearMatchGen_cons.mpr hm))

/-! ### Decidable position tests used to refute matches on concrete inputs -/

/-- Boolean test for a DOY match starting at position `i` of `s`. -/
def doyHitAt (s : List Char) (i : Nat) : Bool :=
  synMarker.isPrefixOf (s.drop i) && headIsDigit ((s.drop i).drop synMarker.length)

/-- A declarative DOY match makes the positional test succeed at the length
of its prefix. -/
lemma isDoyMatch_hitAt {s pre d : List Char} (h : IsDoyMatch s pre d) :
    doyHitAt s pre.length = true := by
  obtain ⟨post, hs, hne, hdig, hpost⟩ := h
  have hdrop : s.drop pre.length = synMarker ++ (d ++ post) := by
    rw [hs]
    exact drop_len_append _ _
  have h3 : headIsDigit (d ++ post) = true := by
    cases d with
    | nil => exact absurd rfl hne
    | cons a d2 =>
      simp only [List.all_cons, Bool.and_eq_true] at hdig
      simp [headIsDigit, hdig.1]
  rw [doyHitAt, hdrop, drop_len_append, isPrefixOf_append_self, h3]
  rfl

/-- A declarative DOY match starts strictly inside the string. -/
lemma isDoyMatch_len {s pre d : List Char} (h : IsDoyMatch s pre d) :
    pre.length < s.length := by
  obtain ⟨post, hs, _, _, _⟩ := h
  have hlen := congrArg List.length hs
  simp only [List.length_append, List.length_cons, synMarker] at hlen
  omega

/-- Boolean test for a year match with boundary `B` starting at position
`i` of `s` (position of the underscore). -/
def yearHitAt (B : List Char → Bool) (s : List Char) (i : Nat) : Bool :=
  match s.drop i with
  | c :: d1 :: d2 :: d3 :: d4 :: rest =>
    c == '_' && d1.isDigit && d2.isDigit && d3.isDigit && d4.isDigit && B rest
  | _ => false

/-- A declarative year match makes the positional test succeed at the
length of its prefix. -/
lemma isYearMatchGen_hitAt {B : List Char → Bool} {s pre ds : List Char}
    (h : IsYearMatchGen B s pre ds) : yearHitAt B s pre.length = true := by
  obtain ⟨post, hs, h4, hdig, hb⟩ := h
  obtain ⟨a, b, c, d, rfl⟩ := exists_four h4
  have hdrop : s.drop pre.length = '_' :: a :: b :: c :: d :: post := by
    rw [hs]
    exact drop_len_append _ _
  simp only [List.all_cons, List.all_nil, Bool.and_eq_true, and_true] at hdig
  rw [yearHitAt, hdrop]
  simp [hdig.1, hdig.2.1, hdig.2.2.1, hdig.2.2.2, hb]

/-- A declarative year match starts strictly inside the string. -/
lemma isYearMatchGen_len {B : List Char → Bool} {s pre ds : List Char}
    (h : IsYearMatchGen B s pre ds) : pre.length < s.length := by
  obtain ⟨post, hs, h4, _, _⟩ := h
  have hlen := congrArg List.length hs
  simp only [List.length_append, List.length_cons, h4] at hlen
  omega

/-! ### Claim C2 -/

/-- C2: for every band label containing the marker `Syn_VI_fitted`
immediately followed by a run of digits (read as its leftmost occurrence
and the maximal digit run there, which is what `re.search` with a greedy
`\d+` produces), `extract_doy_from_band_name` returns exactly that digit
run parsed as an integer; for every string with no such substring it
returns `None` — a value, not an exception. -/
theorem claim_C2_extract_doy :
    (∀ s pre d : List Char, IsDoyMatch s pre d →
      (∀ pre2 d2, IsDoyMatch s pre2 d2 → pre.length ≤ pre2.length) →
      findDoy s = some (digitsToNat d)) ∧
    (∀ s : List Char, (∀ pre d, ¬ IsDoyMatch s pre d) → findDoy s = none) :=
  ⟨findDoy_of_leftmost, findDoy_of_no_match⟩

/-- Witness for C2 at the concrete label `Syn_VI_fitted007x` (match, value
7) and at `no_marker_here` (no match, `None`). -/
theorem claim_C2_extract_doy_witness :
    findDoy "Syn_VI_fitted007x".toList = some 7 ∧
    findDoy "no_marker_here".toList = none := by
  constructor
  · have h := claim_C2_extract_doy.1 "Syn_VI_fitted007x".toList [] ['0', '0', '7']
      ⟨['x'], by decide, by decide, by decide, by decide⟩
      (fun pre2 d2 _ => Nat.zero_le _)
    rw [h]
    decide
  · apply claim_C2_extract_doy.2
    intro pre d hm
    have hb := isDoyMatch_hitAt hm
    have hlen := isDoyMatch_len hm
    have hslen : ("no_marker_here".toList).length = 14 := by decide
    rw [hslen] at hlen
    have hall : ∀ i, i < 14 → doyHitAt "no_marker_here".toList i = false := by decide
    rw [hall pre.length hlen] at hb
    exact absurd hb (by simp)

/-! ### Claim C6 -/

/-- Claim C6 as stated: `extract_year_from_filename` returns the four-digit
run exactly when the run is preceded by `_` and followed by `.`, `-`, `_`
or the end of the string, and returns `None` whenever no such bounded run
exists. (`claimBoundary` has no provision for a trailing newline.) -/
def claimC6Stated : Prop :=
  (∀ s pre ds : List Char, IsYearMatchGen claimBoundary s pre ds →
    (∀ pre2 ds2, IsYearMatchGen claimBoundary s pre2 ds2 → pre.length ≤ pre2.length) →
    findYear s = some (digitsToNat ds)) ∧
  (∀ s : List Char, (∀ pre ds, ¬ IsYearMatchGen claimBoundary s pre ds) → findYear s = none)

/-- C6 fails as stated: the filename `"_2021\n"` (a trailing newline is
legal in a file name) contains no four-digit run bounded by a separator or
the end of the string, yet the code returns `2021`, because Python `$`
also matches just before a newline that ends the string. -/
theorem claim_C6_counterexample : ¬ claimC6Stated := by
  intro hclaim
  have hno : ∀ pre ds, ¬ IsYearMatchGen claimBoundary ['_', '2', '0', '2', '1', '\n'] pre ds := by
    intro pre ds hm
    have hb := isYearMatchGen_hitAt hm
    have hlen := isYearMatchGen_len hm
    have hslen : (['_', '2', '0', '2', '1', '\n'] : List Char).length = 6 := by decide
    rw [hslen] at hlen
    have hall : ∀ i, i < 6 →
        yearHitAt claimBoundary ['_', '2', '0', '2', '1', '\n'] i = false := by decide
    rw [hall pre.length hlen] at hb
    exact absurd hb (by simp)
  have hnone := hclaim.2 _ hno
  exact absurd hnone (by decide)

/-- C6 (amended): as the claim, with the boundary after the four digits
widened to `.`, `-`, `_`, the end of the string, or a newline that ends
the string (the Python `$` semantics the source regex actually has). -/
theorem claim_C6_amended :
    (∀ s pre ds : List Char, IsYearMatchGen sepOrEnd s pre ds →
      (∀ pre2 ds2, IsYearMatchGen sepOrEnd s pre2 ds2 → pre.length ≤ pre2.length) →
      findYear s = some (digitsToNat ds)) ∧
    (∀ s : List Char, (∀ pre ds, ¬ IsYearMatchGen sepOrEnd s pre ds) → findYear s = none) :=
  ⟨findYear_of_leftmost, findYear_of_no_match⟩

/-- Witness for the amended C6 at the concrete filename `_2021.tif`
(match, value 2021) and at `x_12345` (no bounded run, `None`). -/
theorem claim_C6_amended_witness :
    findYear "_2021.tif".toList = some 2021 ∧
    findYear "x_12345".toList = none := by
  constructor
  · have h := claim_C6_amended.1 "_2021.tif".toList [] ['2', '0', '2', '1']
      ⟨".tif".toList, by decide, by decide, by decide, by decide⟩
      (fun pre2 ds2 _ => Nat.zero_le _)
    rw [h]
    decide
  · apply claim_C6_amended.2
    intro pre ds hm
    have hb := isYearMatchGen_hitAt hm
    have hlen := isYearMatchGen_len hm
    have hslen : ("x_12345".toList).length = 7 := by decide
    rw [hslen] at hlen
    have hall : ∀ i, i < 7 → yearHitAt sepOrEnd "x_12345".toList i = false := by decide
    rw [hall pre.length hlen] at hb
    exact absurd hb (by simp)

/-! ### Claims C1, C4, C5 — the tile merger -/

/-- Concrete metadata fixture. -/
def metaA : Meta := ⟨gtiffStr, int16Str, 10, 20, 2, "EPSG:4326".toList, 1⟩

/-- Concrete mosaic fixture. -/
def mosaicA : Mosaic := ⟨2, 20, 10, fun _ _ _ => 0⟩

/-- A tile whose band labels carry DOY markers. -/
def tileA : Tile := ⟨["Syn_VI_fitted001".toList, "Syn_VI_fitted045".toList], metaA⟩

/-- A tile with different band labels, used as a non-first tile. -/
def tileB : Tile := ⟨["other_band".toList], metaA⟩

/-- Environment in which every path opens (as `tileA`) but the external
mosaic operation raises. -/
def envMergeFail : Env := ⟨fun _ => some tileA, false, mosaicA, 7⟩

/-- Environment in which path `a` opens as `tileA`, every other path opens
as `tileB`, and the mosaic operation succeeds. -/
def envOk : Env := ⟨fun p => if p = ['a'] then some tileA else some tileB, true, mosaicA, 7⟩

/-- The triple `merge_tiff_files` returns in `envOk` on `[a, b]`. -/
def mergeOutOk : MergeOut := ⟨mosaicA, { metaA with transform := 7 }, tileA.descriptions⟩

/-- C4: calling the merger with an empty tile list raises the
input-validation error (Python `ValueError`) at once: the result does not
depend on the I/O environment at all, so no tile handle is opened. -/
theorem claim_C4_empty_input : ∀ env : Env,
    mergeTiffFiles env [] = (Except.error PyErr.valueError, []) :=
  fun _ => rfl

/-- Claim C1 as stated: on every nonempty input and every execution path —
success or failure — every raster handle opened by `merge_tiff_files` is
released before control leaves the function. -/
def claimC1Stated : Prop :=
  ∀ (env : Env) (files : List (List Char)), files ≠ [] → (mergeTiffFiles env files).2 = []

/-- C1 fails as stated: with a single tile `a` that opens fine and an
external mosaic operation that raises, the handle of `a` is still open
when the exception propagates — the source closes handles only after a
successful `merge` and has no `try/finally`. -/
theorem claim_C1_counterexample : ¬ claimC1Stated := by
  intro h
  have h2 := h envMergeFail [['a']] (by simp)
  exact absurd h2 (by decide)

/-- C1 (amended): on the success path — whenever `merge_tiff_files`
actually returns its triple — every handle it opened has been closed; on
the exception paths (a tile fails to open, or the mosaic operation fails)
the handles already opened are not released. -/
theorem claim_C1_amended : ∀ (env : Env) (files : List (List Char)) (out : MergeOut),
    (mergeTiffFiles env files).1 = Except.ok out → (mergeTiffFiles env files).2 = [] := by
  intro env files out h
  cases files with
  | nil => simp [mergeTiffFiles] at h
  | cons f0 fs =>
    cases ho : env.openTile f0 with
    | none => simp [mergeTiffFiles, ho] at h
    | some t0 =>
      by_cases hr : (openLoop env fs).2 = true
      · by_cases hm : env.mergeOk = true
        · simp [mergeTiffFiles, ho, hr, hm]
        · simp [mergeTiffFiles, ho, hr, hm] at h
      · simp [mergeTiffFiles, ho, hr] at h

/-- Witness for the amended C1: a successful two-tile merge in `envOk`
returns with no handle left open. -/
theorem claim_C1_amended_witness :
    (mergeTiffFiles envOk [['a'], ['b']]).1 = Except.ok mergeOutOk ∧
    (mergeTiffFiles envOk [['a'], ['b']]).2 = [] :=
  ⟨rfl, claim_C1_amended envOk [['a'], ['b']] mergeOutOk rfl⟩

/-- C5: whenever the merger returns successfully on a nonempty list, the
band-label list of the result is the description tuple of the first tile,
never that of a later tile. -/
theorem claim_C5_first_tile_labels :
    ∀ (env : Env) (f0 : List Char) (fs : List (List Char)) (t0 : Tile) (out : MergeOut),
    env.openTile f0 = some t0 →
    (mergeTiffFiles env (f0 :: fs)).1 = Except.ok out →
    out.descriptions = t0.descriptions := by
  intro env f0 fs t0 out ho h
  by_cases hr : (openLoop env fs).2 = true
  · by_cases hm : env.mergeOk = true
    · simp only [mergeTiffFiles, ho, hr, hm, if_true] at h
      injection h with h2
      rw [← h2]
    · simp [mergeTiffFiles, ho, hr, hm] at h
  · simp [mergeTiffFiles, ho, hr] at h

/-- Witness for C5: in `envOk` the first tile is `tileA` and the second
tile has different labels; the merged result carries `tileA`'s labels. -/
theorem claim_C5_witness :
    (mergeTiffFiles envOk [['a'], ['b']]).1 = Except.ok mergeOutOk ∧
    mergeOutOk.descriptions = tileA.descriptions :=
  ⟨rfl, claim_C5_first_tile_labels envOk ['a'] [['b']] tileA mergeOutOk rfl rfl⟩

/-! ### Claim C7 — the grouping step of `process_region` -/

/-- `lookupGroup` after `addToGroup`: the path lands at the end of the list
stored under its year key and no other key changes. -/
lemma lookup_addToGroup : ∀ (g : List (Nat × List (List Char))) (y : Nat) (p : List Char)
    (y2 : Nat), lookupGroup (addToGroup g y p) y2 =
      if y = y2 then lookupGroup g y2 ++ [p] else lookupGroup g y2 := by
  intro g y p y2
  induction g with
  | nil => by_cases h : y = y2 <;> simp [addToGroup, lookupGroup, h]
  | cons e rest ih =>
    obtain ⟨y0, ps⟩ := e
    by_cases h1 : y0 = y
    · subst h1
      by_cases h2 : y0 = y2 <;> simp [addToGroup, lookupGroup, h2]
    · by_cases h2 : y0 = y2
      · subst h2
        have h3 : ¬(y = y0) := fun he => h1 he.symm
        simp [addToGroup, lookupGroup, h1, h3]
      · simp [addToGroup, lookupGroup, h1, h2, ih]

/-- `groupStep` skips files without the raster extension. -/
lemma groupStep_eq_skip_ext {rp : List Char} {acc : List (Nat × List (List Char))}
    {f : List Char} (he : endsWithList f tifSuffix = false) : groupStep rp acc f = acc := by
  simp [groupStep, he]

/-- `groupStep` skips files whose year cannot be parsed. -/
lemma groupStep_eq_skip_none {rp : List Char} {acc : List (Nat × List (List Char))}
    {f : List Char} (he : endsWithList f tifSuffix = true) (hy : findYear f = none) :
    groupStep rp acc f = acc := by
  simp [groupStep, he, hy]

/-- `groupStep` also skips a parsed year `0`, because Python `if year:`
treats `0` as falsy. -/
lemma groupStep_eq_skip_zero {rp : List Char} {acc : List (Nat × List (List Char))}
    {f : List Char} (he : endsWithList f tifSuffix = true) (hy : findYear f = some 0) :
    groupStep rp acc f = acc := by
  simp [groupStep, he, hy]

/-- `groupStep` records a file with the raster extension and a truthy
parsed year. -/
lemma groupStep_eq_add {rp : List Char} {acc : List (Nat × List (List Char))}
    {f : List Char} {y1 : Nat} (he : endsWithList f tifSuffix = true)
    (hy : findYear f = some y1) (h0 : y1 ≠ 0) :
    groupStep rp acc f = addToGroup acc y1 (pathJoin rp f) := by
  simp [groupStep, he, hy, h0]

/-- Membership in a year group after one `groupStep`. -/
lemma mem_lookup_groupStep (rp : List Char) (acc : List (Nat × List (List Char)))
    (f : List Char) (y : Nat) (p : List Char) :
    p ∈ lookupGroup (groupStep rp acc f) y ↔
      p ∈ lookupGroup acc y ∨
        (p = pathJoin rp f ∧ endsWithList f tifSuffix = true ∧ findYear f = some y ∧
          y ≠ 0) := by
  cases he : endsWithList f tifSuffix with
  | false =>
    rw [groupStep_eq_skip_ext he]
    simp [he]
  | true =>
    cases hy : findYear f with
    | none =>
      rw [groupStep_eq_skip_none he hy]
      simp [hy]
    | some y1 =>
      by_cases h0 : y1 = 0
      · subst h0
        rw [groupStep_eq_skip_zero he hy]
        simp only [he, hy, true_and, Option.some.injEq]
        constructor
        · exact Or.inl
        · rintro (hmem | ⟨_, h0y, hy0⟩)
          · exact hmem
          · exact absurd h0y.symm hy0
      · rw [groupStep_eq_add he hy h0, lookup_addToGroup]
        by_cases hyy : y1 = y
        · subst hyy
          rw [if_pos rfl]
          simp [he, hy, h0, List.mem_append]
        · rw [if_neg hyy]
          simp only [he, hy, true_and, Option.some.injEq]
          constructor
          · exact Or.inl
          · rintro (hmem | ⟨_, hinj, _⟩)
            · exact hmem
            · exact absurd hinj hyy

/-- Membership in a year group after folding `groupStep` over a file
list. -/
lemma mem_lookup_foldl (rp : List Char) : ∀ (files : List (List Char))
    (acc : List (Nat × List (List Char))) (y : Nat) (p : List Char),
    p ∈ lookupGroup (files.foldl (groupStep rp) acc) y ↔
      p ∈ lookupGroup acc y ∨
        ∃ f, f ∈ files ∧ p = pathJoin rp f ∧ endsWithList f tifSuffix = true ∧
          findYear f = some y ∧ y ≠ 0 := by
  intro files
  induction files with
  | nil =>
    intro acc y p
    simp
  | cons f fs ih =>
    intro acc y p
    rw [List.foldl_cons, ih, mem_lookup_groupStep]
    constructor
    · rintro ((hacc | hf) | ⟨f2, hf2, rest⟩)
      · exact Or.inl hacc
      · exact Or.inr ⟨f, List.mem_cons_self f fs, hf⟩
      · exact Or.inr ⟨f2, List.mem_cons_of_mem f hf2, rest⟩
    · rintro (hacc | ⟨f2, hf2, rest⟩)
      · exact Or.inl (Or.inl hacc)
      · rcases List.mem_cons.mp hf2 with rfl | hf2b
        · exact Or.inl (Or.inr rest)
        · exact Or.inr ⟨f2, hf2b, rest⟩

/-- Claim C7 as stated: every listed file whose name ends in `.tif` and for
which `extract_year_from_filename` returns a year is placed in that year's
group. -/
def claimC7Stated : Prop :=
  ∀ (rp : List Char) (files : List (List Char)) (f : List Char) (y : Nat),
    f ∈ files → endsWithList f tifSuffix = true → findYear f = some y →
    pathJoin rp f ∈ lookupGroup (groupFilesByYear rp files) y

/-- C7 fails as stated: for `a_0000.tif` the parser returns the year `0`,
but the loop guard `if year:` treats `0` as falsy, so the file is dropped
and no group is created. -/
theorem claim_C7_counterexample : ¬ claimC7Stated := by
  intro h
  have h2 := h ['r'] ["a_0000.tif".toList] "a_0000.tif".toList 0 (by simp) (by decide)
    (by decide)
  exact absurd h2 (by decide)

/-- C7 (amended): a path is in the year-`y` group exactly when it is the
join of the region path with a listed file name that ends in `.tif` and
whose parsed year is `y` with `y ≠ 0`; every other file is dropped
silently (the grouping is a total function — no error is raised). -/
theorem claim_C7_amended : ∀ (rp : List Char) (files : List (List Char)) (y : Nat)
    (p : List Char),
    p ∈ lookupGroup (groupFilesByYear rp files) y ↔
      ∃ f, f ∈ files ∧ p = pathJoin rp f ∧ endsWithList f tifSuffix = true ∧
        findYear f = some y ∧ y ≠ 0 := by
  intro rp files y p
  rw [groupFilesByYear, mem_lookup_foldl]
  simp [lookupGroup]

/-- Witness for the amended C7: `a_2020.tif` is grouped under 2020. -/
theorem claim_C7_amended_witness :
    pathJoin ['r'] "a_2020.tif".toList ∈
      lookupGroup (groupFilesByYear ['r'] ["a_2020.tif".toList]) 2020 :=
  (claim_C7_amended ['r'] ["a_2020.tif".toList] 2020 (pathJoin ['r'] "a_2020.tif".toList)).mpr
    ⟨"a_2020.tif".toList, by simp, rfl, by decide, by decide, by decide⟩

/-! ### Claims C3, C8, C9, C10 — the band extractor -/

/-- The metadata override `out_meta.update({...})` performed before each
write: GTiff driver, the dimensions of the band slice (identical for every
band of the mosaic), one band, `int16` samples and the caller-supplied
coordinate reference system; all other keys (such as the transform) are
left as they were. -/
def metaOverride (m : Meta) (mo : Mosaic) (crs : List Char) : Meta :=
  { m with driver := gtiffStr, height := mo.height, width := mo.width, count := 1,
           dtype := int16Str, crs := crs }

/-- `pasLoop` on an exhausted index list. -/
lemma pasLoop_nil {mo : Mosaic} {descs : List (List Char)} {dir : List Char} {year : Nat}
    {region crs : List Char} {m : Meta} :
    pasLoop mo descs dir year region crs [] m = ([], m) := rfl

/-- `pasLoop` skips a band with an unparseable label. -/
lemma pasLoop_cons_none {mo : Mosaic} {descs : List (List Char)} {dir : List Char}
    {year : Nat} {region crs : List Char} {m : Meta} {i : Nat} {is : List Nat}
    (hd : findDoy (listGetD descs i) = none) :
    pasLoop mo descs dir year region crs (i :: is) m =
      pasLoop mo descs dir year region crs is m := by
  simp [pasLoop, hd]

/-- `pasLoop` writes a band with a parsed DOY and threads the overridden
metadata into the rest of the loop. -/
lemma pasLoop_cons_some {mo : Mosaic} {descs : List (List Char)} {dir : List Char}
    {year : Nat} {region crs : List Char} {m : Meta} {i doy : Nat} {is : List Nat}
    (hd : findDoy (listGetD descs i) = some doy) :
    pasLoop mo descs dir year region crs (i :: is) m =
      (⟨pathJoin dir (ndviFileName region year doy), metaOverride m mo crs,
          fun r c => mo.pix i r c⟩ ::
        (pasLoop mo descs dir year region crs is (metaOverride m mo crs)).1,
       (pasLoop mo descs dir year region crs is (metaOverride m mo crs)).2) := by
  simp [pasLoop, hd, metaOverride]

/-- C3: on a merged raster with two bands labeled `Syn_VI_fitted001` and
`Syn_VI_fitted045`, region `R`, year 2020, the extractor writes exactly
two files, named `NDVI_R_2020_001.tif` and `NDVI_R_2020_045.tif` inside
the output directory, each with GTiff driver, band count 1, `int16`
samples and the caller-supplied coordinate reference system. -/
theorem claim_C3_two_bands : ∀ (mo : Mosaic) (meta : Meta) (dir crs : List Char),
    mo.bands = 2 →
    (((processAndSaveBands mo meta
        ["Syn_VI_fitted001".toList, "Syn_VI_fitted045".toList] dir 2020 "R".toList crs).1).map
          OutFile.name =
      [pathJoin dir "NDVI_R_2020_001.tif".toList,
       pathJoin dir "NDVI_R_2020_045.tif".toList]) ∧
    ∀ f ∈ (processAndSaveBands mo meta
        ["Syn_VI_fitted001".toList, "Syn_VI_fitted045".toList] dir 2020 "R".toList crs).1,
      f.meta.driver = gtiffStr ∧ f.meta.count = 1 ∧ f.meta.dtype = int16Str ∧
        f.meta.crs = crs := by
  intro mo meta dir crs hb
  have hr : List.range mo.bands = [0, 1] := by rw [hb]; decide
  have h1 : findDoy (listGetD ["Syn_VI_fitted001".toList, "Syn_VI_fitted045".toList] 0) =
      some 1 := by decide
  have h2 : findDoy (listGetD ["Syn_VI_fitted001".toList, "Syn_VI_fitted045".toList] 1) =
      some 45 := by decide
  have hn1 : ndviFileName "R".toList 2020 1 = "NDVI_R_2020_001.tif".toList := by decide
  have hn2 : ndviFileName "R".toList 2020 45 = "NDVI_R_2020_045.tif".toList := by decide
  constructor
  · rw [processAndSaveBands, hr, pasLoop_cons_some h1, pasLoop_cons_some h2, pasLoop_nil]
    simp
    exact ⟨congrArg (pathJoin dir) hn1, congrArg (pathJoin dir) hn2⟩
  · rw [processAndSaveBands, hr, pasLoop_cons_some h1, pasLoop_cons_some h2, pasLoop_nil]
    intro f hf
    simp only [List.mem_cons, List.not_mem_nil, or_false] at hf
    rcases hf with rfl | rfl
    · exact ⟨rfl, rfl, rfl, rfl⟩
    · exact ⟨rfl, rfl, rfl, rfl⟩

/-- Witness for C3 on a concrete two-band mosaic. -/
theorem claim_C3_witness :
    ((processAndSaveBands mosaicA metaA
        ["Syn_VI_fitted001".toList, "Syn_VI_fitted045".toList] ['d'] 2020 "R".toList
        ['c']).1).map OutFile.name =
      [pathJoin ['d'] "NDVI_R_2020_001.tif".toList,
       pathJoin ['d'] "NDVI_R_2020_045.tif".toList] :=
  (claim_C3_two_bands mosaicA metaA ['d'] ['c'] rfl).1

/-- C8: on a two-band merged raster whose first band label is unparseable
and whose second is `Syn_VI_fitted045`, the extractor writes exactly one
file — the valid band's — and the invalid band is skipped without
aborting anything (the function is total and simply continues). -/
theorem claim_C8_skip_invalid : ∀ (mo : Mosaic) (meta : Meta)
    (dir region crs bad : List Char) (year : Nat),
    mo.bands = 2 → findDoy bad = none →
    ((processAndSaveBands mo meta [bad, "Syn_VI_fitted045".toList] dir year region
        crs).1).map OutFile.name = [pathJoin dir (ndviFileName region year 45)] := by
  intro mo meta dir region crs bad year hb hbad
  have hr : List.range mo.bands = [0, 1] := by rw [hb]; decide
  have h0 : findDoy (listGetD [bad, "Syn_VI_fitted045".toList] 0) = none := hbad
  have h2a : findDoy "Syn_VI_fitted045".toList = some 45 := by decide
  have h2 : findDoy (listGetD [bad, "Syn_VI_fitted045".toList] 1) = some 45 := h2a
  rw [processAndSaveBands, hr, pasLoop_cons_none h0, pasLoop_cons_some h2, pasLoop_nil]
  simp

/-- Witness for C8 with the unparseable label `oops`. -/
theorem claim_C8_witness :
    ((processAndSaveBands mosaicA metaA ["oops".toList, "Syn_VI_fitted045".toList] ['d']
        2020 ['R'] ['c']).1).map OutFile.name =
      [pathJoin ['d'] (ndviFileName ['R'] 2020 45)] :=
  claim_C8_skip_invalid mosaicA metaA ['d'] ['R'] ['c'] "oops".toList 2020 rfl (by decide)

/-- The final state of the threaded metadata: untouched when nothing was
written, fully overridden as soon as at least one band was written. -/
lemma pasLoop_final_meta : ∀ (mo : Mosaic) (descs : List (List Char)) (dir : List Char)
    (year : Nat) (region crs : List Char) (is : List Nat) (m : Meta),
    ((pasLoop mo descs dir year region crs is m).1 = [] ∧
      (pasLoop mo descs dir year region crs is m).2 = m) ∨
    ((pasLoop mo descs dir year region crs is m).1 ≠ [] ∧
      (pasLoop mo descs dir year region crs is m).2 = metaOverride m mo crs) := by
  intro mo descs dir year region crs is
  induction is with
  | nil => intro m; exact Or.inl ⟨rfl, rfl⟩
  | cons i is ih =>
    intro m
    cases hd : findDoy (listGetD descs i) with
    | none =>
      rw [pasLoop_cons_none hd]
      exact ih m
    | some doy =>
      rw [pasLoop_cons_some hd]
      right
      constructor
      · simp
      · show (pasLoop mo descs dir year region crs is (metaOverride m mo crs)).2 =
          metaOverride m mo crs
        rcases ih (metaOverride m mo crs) with ⟨_, h2⟩ | ⟨_, h2⟩
        · exact h2
        · rw [h2]
          simp [metaOverride]

/-- C9: `process_and_save_bands` mutates the caller's metadata dict in
place; whenever at least one band was written, the caller's dict ends up
with GTiff driver, the mosaic's height and width (which are the height and
width of every written band, the last one included), band count 1, `int16`
samples and the supplied coordinate reference system. -/
theorem claim_C9_meta_mutated : ∀ (mo : Mosaic) (meta : Meta) (descs : List (List Char))
    (dir : List Char) (year : Nat) (region crs : List Char),
    (processAndSaveBands mo meta descs dir year region crs).1 ≠ [] →
    (processAndSaveBands mo meta descs dir year region crs).2 = metaOverride meta mo crs := by
  intro mo meta descs dir year region crs hne
  rcases pasLoop_final_meta mo descs dir year region crs (List.range mo.bands) meta with
    ⟨h1, _⟩ | ⟨_, h2⟩
  · exact absurd h1 hne
  · exact h2

/-- Witness for C9 on a concrete call that writes one band. -/
theorem claim_C9_witness :
    (processAndSaveBands mosaicA metaA ["Syn_VI_fitted001".toList, "oops".toList] ['d']
        2020 ['R'] ['c']).2 = metaOverride metaA mosaicA ['c'] :=
  claim_C9_meta_mutated mosaicA metaA ["Syn_VI_fitted001".toList, "oops".toList] ['d'] 2020
    ['R'] ['c']
    (fun hc => absurd (congrArg List.length hc) (by decide))

/-- `findDoy` on a label that is exactly the marker followed by digits. -/
lemma findDoy_marker_digits {ds : List Char} (hne : ds ≠ [])
    (hdig : ds.all Char.isDigit = true) :
    findDoy (synMarker ++ ds) = some (digitsToNat ds) := by
  apply findDoy_of_match_nil
  refine ⟨[], ?_, hne, hdig, rfl⟩
  simp

/-- A one-band mosaic fixture. -/
def mosaicB : Mosaic := ⟨1, 20, 10, fun _ _ _ => 0⟩

/-- C10: neither the parser nor the extractor checks the DOY range 1–366:
for a band labeled with the marker followed by any digit run whatsoever —
encoding 0, or a value above 366 — the band is written, its file named
with the value zero-padded to at least three digits, values of four or
more digits kept at full width. -/
theorem claim_C10_no_doy_range_check : ∀ (mo : Mosaic) (meta : Meta) (dir : List Char)
    (year : Nat) (region crs ds : List Char),
    mo.bands = 1 → ds ≠ [] → ds.all Char.isDigit = true →
    (((processAndSaveBands mo meta [synMarker ++ ds] dir year region crs).1).map
        OutFile.name = [pathJoin dir (ndviFileName region year (digitsToNat ds))]) ∧
    3 ≤ (pad3 (digitsToNat ds)).length ∧
    (3 ≤ (natDigits (digitsToNat ds)).length →
      pad3 (digitsToNat ds) = natDigits (digitsToNat ds)) := by
  intro mo meta dir year region crs ds hb hne hdig
  have hr : List.range mo.bands = [0] := by rw [hb]; decide
  have h1 : findDoy (listGetD [synMarker ++ ds] 0) = some (digitsToNat ds) :=
    findDoy_marker_digits hne hdig
  refine ⟨?_, ?_, ?_⟩
  · rw [processAndSaveBands, hr, pasLoop_cons_some h1, pasLoop_nil]
    simp
  · simp only [pad3, List.length_append, List.length_replicate]
    omega
  · intro h3
    simp [pad3, Nat.sub_eq_zero_of_le h3]

/-- Witness for C10 at the out-of-range DOY 0: the file is written and its
name carries `000`. -/
theorem claim_C10_witness :
    (((processAndSaveBands mosaicB metaA [synMarker ++ ['0']] ['d'] 2021 ['R']
        ['c']).1).map OutFile.name =
      [pathJoin ['d'] (ndviFileName ['R'] 2021 (digitsToNat ['0']))]) ∧
    pathJoin ['d'] (ndviFileName ['R'] 2021 (digitsToNat ['0'])) =
      "d/NDVI_R_2021_000.tif".toList := by
  constructor
  · exact (claim_C10_no_doy_range_check mosaicB metaA ['d'] 2021 ['R'] ['c'] ['0'] rfl
      (by decide) (by decide)).1
  · decide

/-- Witness for C4 in a concrete environment. -/
theorem claim_C4_empty_input_witness :
    mergeTiffFiles envOk [] = (Except.error PyErr.valueError, []) :=
  claim_C4_empty_input envOk
